import Mathlib

/-!
Verification development for the cbx-mcp-server-k8s command gateway.

The definitions below are a shallow embedding of the Python source:

* `executor/parser.py`   — tokenization, `parse_command`, pipe detection/splitting;
* `executor/validator.py` — `CommandValidator.validate` and its helpers;
* `executor/runner.py`   — `process_command_result`, `execute_tool_command`,
  `execute_piped_commands` (timed behaviour modelled with explicit stage
  durations);
* `session/event_store.py` — `InMemoryEventStore`;
* `middleware/preprocessor.py` — `ToolCallPreprocessor._filter_to_schema`.

Python strings are modelled by Lean `String`; the handful of `str` methods the
source uses (`lower`, `strip`, `startswith`, `split`, membership) are given
explicit models below.  `shlex.split` (standard library) is modelled at its
interface by a POSIX-mode quote/escape state machine returning `none` on the
`ValueError` raised for unbalanced quotes.  Python dicts that the source builds
by insertion (`flags`) are modelled as insertion-ordered association lists with
update-in-place semantics.
-/

namespace CbxMcp

/-! ## Models of Python string primitives -/

/-- Model of `str.lower` restricted to ASCII (all strings the validator
compares are ASCII command text). -/
def lowerChar (c : Char) : Char :=
  if 'A' ≤ c ∧ c ≤ 'Z' then Char.ofNat (c.toNat + 32) else c

/-- Model of `str.lower`. -/
def pyLower (s : String) : String := ⟨s.data.map lowerChar⟩

/-- Python `str` whitespace (`' '`, `\t`, `\n`, `\r`, `\x0b`, `\x0c`) as used
by `str.strip()` and `str.split()`. -/
def isPyWs (c : Char) : Bool :=
  c = ' ' || c = '\t' || c = '\n' || c = '\r' ||
  c = Char.ofNat 11 || c = Char.ofNat 12

/-- Model of `str.strip()`. -/
def pyStrip (s : String) : String :=
  ⟨((s.data.dropWhile isPyWs).reverse.dropWhile isPyWs).reverse⟩

/-- Model of `str.startswith`. -/
def pyStartsWith (s pre : String) : Bool := pre.data.isPrefixOf s.data

/-- Model of `c in s` for a single character. -/
def pyHasChar (s : String) (c : Char) : Bool := s.data.contains c

/-- Split a character list at the first occurrence of `c`
(model of `str.split(c, 1)` when `c` occurs). -/
def splitFirstChar (c : Char) : List Char → Option (List Char × List Char)
  | [] => none
  | x :: xs =>
    if x = c then some ([], xs)
    else (splitFirstChar c xs).map (fun p => (x :: p.1, p.2))

/-- Model of `str.split()` (no argument: split on whitespace runs, no empty
fields). -/
def pyWsSplitAux : List Char → List Char → List String
  | [], acc => if acc = [] then [] else [⟨acc.reverse⟩]
  | c :: cs, acc =>
    if isPyWs c then
      if acc = [] then pyWsSplitAux cs []
      else ⟨acc.reverse⟩ :: pyWsSplitAux cs []
    else pyWsSplitAux cs (c :: acc)

def pyWsSplit (s : String) : List String := pyWsSplitAux s.data []

/-! ## Model of `shlex.split` (POSIX mode)

`parse_command` tokenizes with `shlex.split` and falls back to `str.split()`
when it raises `ValueError` (unbalanced quotes / trailing escape).  The state
machine below models the POSIX lexing rules the source relies on: whitespace
separates tokens, single quotes are fully literal, double quotes allow `\"`
and `\\` escapes, backslash escapes the next character outside quotes. -/

inductive QuoteMode | normal | single | double
  deriving DecidableEq

/-- `shlex` whitespace is `' '`, `\t`, `\r`, `\n`. -/
def isShlexWs (c : Char) : Bool := c = ' ' || c = '\t' || c = '\r' || c = '\n'

/-- Append a character to the current (possibly not yet started) token. -/
def pushTok (acc : Option (List Char)) (c : Char) : Option (List Char) :=
  some ((acc.getD []) ++ [c])

def shlexGo : List Char → QuoteMode → Option (List Char) → List String →
    Option (List String)
  | [], .normal, acc, out =>
    match acc with
    | none => some out
    | some t => some (out ++ [⟨t⟩])
  | [], .single, _, _ => none
  | [], .double, _, _ => none
  | c :: cs, .normal, acc, out =>
    if c = '\\' then
      match cs with
      | [] => none
      | d :: ds => shlexGo ds .normal (pushTok acc d) out
    else if c = '\'' then shlexGo cs .single (some (acc.getD [])) out
    else if c = '"' then shlexGo cs .double (some (acc.getD [])) out
    else if isShlexWs c then
      match acc with
      | none => shlexGo cs .normal none out
      | some t => shlexGo cs .normal none (out ++ [⟨t⟩])
    else shlexGo cs .normal (pushTok acc c) out
  | c :: cs, .single, acc, out =>
    if c = '\'' then shlexGo cs .normal acc out
    else shlexGo cs .single (pushTok acc c) out
  | c :: cs, .double, acc, out =>
    if c = '"' then shlexGo cs .normal acc out
    else if c = '\\' then
      match cs with
      | [] => none
      | d :: ds =>
        if d = '"' ∨ d = '\\' then shlexGo ds .double (pushTok acc d) out
        else shlexGo ds .double (pushTok (pushTok acc '\\') d) out
    else shlexGo cs .double (pushTok acc c) out

/-- Model of `shlex.split(s)`; `none` models the `ValueError` raised on
malformed input. -/
def shlexSplit (s : String) : Option (List String) :=
  shlexGo s.data .normal none []

/-- Tokenization used by `parse_command`: `shlex.split` with fallback to
whitespace splitting on `ValueError`. -/
def tokenize (s : String) : List String :=
  match shlexSplit s with
  | some ts => ts
  | none => pyWsSplit s

/-! ## Data model (`executor/types.py`) -/

/-- `ParsedCommand` from `executor/types.py`.  `flags` models the Python dict
as an insertion-ordered association list. -/
structure ParsedCommand where
  tool : String
  action : String
  resource : Option String
  name : Option String
  args : List String
  flags : List (String × Option String)
  raw : String
  deriving DecidableEq

/-- Model of assigning `d[k] = v` on a Python dict kept as an
insertion-ordered association list: an existing key keeps its position and has
its value replaced, a new key is appended. -/
def pyDictSet (d : List (String × Option String)) (k : String)
    (v : Option String) : List (String × Option String) :=
  if d.any (fun p => p.1 = k) then
    d.map (fun p => if p.1 = k then (k, v) else p)
  else d ++ [(k, v)]

/-- Model of `k in d` for the flags dict. -/
def pyDictMem (d : List (String × Option String)) (k : String) : Bool :=
  d.any (fun p => p.1 = k)

/-- `ParsedCommand.has_flag`: any of the given flag names is a key of
`flags`. -/
def ParsedCommand.hasFlag (p : ParsedCommand) (names : List String) : Bool :=
  names.any (fun f => pyDictMem p.flags f)

/-- Python truthiness of an `Optional[str]` (`None` and `""` are falsy). -/
def pyTruthy : Option String → Bool
  | none => false
  | some s => s ≠ ""

/-- `ValidationResult` from `executor/types.py`. -/
structure ValidationResult where
  allowed : Bool
  reason : Option String
  rule : Option String
  deriving DecidableEq

def ValidationResult.allow : ValidationResult :=
  { allowed := true, reason := none, rule := none }

def ValidationResult.block (reason : String) (rule : Option String) :
    ValidationResult :=
  { allowed := false, reason := some reason, rule := rule }

/-! ## Parser (`executor/parser.py`) -/

/-- `KUBECTL_RESOURCE_ACTIONS`. -/
def kubectlResourceActions : List String :=
  ["get", "describe", "delete", "create", "apply", "patch", "edit",
   "label", "annotate", "scale", "rollout", "expose", "autoscale",
   "logs", "exec", "cp", "port-forward", "attach", "debug"]

/-- The alias table of `_normalize_resource_type`. -/
def resourceAliases : List (String × String) :=
  [("po", "pod"), ("pods", "pod"),
   ("svc", "service"), ("services", "service"),
   ("deploy", "deployment"), ("deployments", "deployment"),
   ("rs", "replicaset"), ("replicasets", "replicaset"),
   ("ds", "daemonset"), ("daemonsets", "daemonset"),
   ("sts", "statefulset"), ("statefulsets", "statefulset"),
   ("cm", "configmap"), ("configmaps", "configmap"),
   ("ns", "namespace"), ("namespaces", "namespace"),
   ("no", "node"), ("nodes", "node"),
   ("pv", "persistentvolume"), ("persistentvolumes", "persistentvolume"),
   ("pvc", "persistentvolumeclaim"),
   ("persistentvolumeclaims", "persistentvolumeclaim"),
   ("ing", "ingress"), ("ingresses", "ingress"),
   ("netpol", "networkpolicy"), ("networkpolicies", "networkpolicy"),
   ("sa", "serviceaccount"), ("serviceaccounts", "serviceaccount"),
   ("hpa", "horizontalpodautoscaler"),
   ("horizontalpodautoscalers", "horizontalpodautoscaler"),
   ("cj", "cronjob"), ("cronjobs", "cronjob"),
   ("jobs", "job"), ("secrets", "secret"),
   ("ep", "endpoints"), ("endpoints", "endpoints"),
   ("ev", "event"), ("events", "event")]

/-- `_normalize_resource_type`: alias lookup, otherwise lowercased
pass-through. -/
def normalizeResourceType (r : String) : String :=
  let rl := pyLower r
  match resourceAliases.find? (fun p => p.1 = rl) with
  | some p => p.2
  | none => rl

/-- The flag/positional scanning loop of `_parse_kubectl` (the `while i <
len(tokens)` loop, lines 92-120 of `parser.py`), accumulating `args` and
`flags` left to right. -/
def kubectlLoop : List String → List String → List (String × Option String) →
    List String × List (String × Option String)
  | [], args, flags => (args, flags)
  | t :: rest, args, flags =>
    if pyStartsWith t "--" then
      if pyHasChar t '=' then
        match splitFirstChar '=' t.data with
        | some p => kubectlLoop rest args (pyDictSet flags ⟨p.1⟩ (some ⟨p.2⟩))
        | none => kubectlLoop rest args flags
      else
        match rest with
        | v :: rest' =>
          if ¬ pyStartsWith v "-" then
            kubectlLoop rest' args (pyDictSet flags t (some v))
          else kubectlLoop (v :: rest') args (pyDictSet flags t none)
        | [] => kubectlLoop [] args (pyDictSet flags t none)
    else if pyStartsWith t "-" ∧ t.length = 2 then
      match rest with
      | v :: rest' =>
        if ¬ pyStartsWith v "-" then
          kubectlLoop rest' args (pyDictSet flags t (some v))
        else kubectlLoop (v :: rest') args (pyDictSet flags t none)
      | [] => kubectlLoop [] args (pyDictSet flags t none)
    else if pyStartsWith t "-" ∧ t.length > 2 then
      kubectlLoop rest args (pyDictSet flags t none)
    else kubectlLoop rest (args ++ [t]) flags

/-- Resource/name extraction of `_parse_kubectl` (lines 122-133). -/
def kubectlResourceName (action : String) (args : List String) :
    Option String × Option String :=
  match args with
  | [] => (none, none)
  | a0 :: tailArgs =>
    if action ∈ kubectlResourceActions then
      if tailArgs = [] then (some (normalizeResourceType a0), none)
      else if pyHasChar a0 '/' then
        match splitFirstChar '/' a0.data with
        | some p => (some (normalizeResourceType ⟨p.1⟩), some (⟨p.2⟩ : String))
        | none => (some (normalizeResourceType a0), none)
      else
        match tailArgs with
        | a1 :: _ => (some (normalizeResourceType a0), some a1)
        | [] => (some (normalizeResourceType a0), none)
    else (none, none)

/-- `_parse_kubectl`. -/
def parseKubectl (tokens : List String) (raw : String) : ParsedCommand :=
  match tokens with
  | [] =>
    { tool := "kubectl", action := "", resource := none, name := none,
      args := [], flags := [], raw := raw }
  | action :: rest =>
    let af := kubectlLoop rest [] []
    let rn := kubectlResourceName action af.1
    { tool := "kubectl", action := action, resource := rn.1, name := rn.2,
      args := af.1, flags := af.2, raw := raw }

/-- The flag/positional loop shared by `_parse_helm` and `_parse_argocd`
(long flags, two-character short flags, everything else positional; no
clustered-short-flag branch, so `-it` becomes a positional). -/
def helmLoop : List String → List String → List (String × Option String) →
    List String × List (String × Option String)
  | [], args, flags => (args, flags)
  | t :: rest, args, flags =>
    if pyStartsWith t "--" then
      if pyHasChar t '=' then
        match splitFirstChar '=' t.data with
        | some p => helmLoop rest args (pyDictSet flags ⟨p.1⟩ (some ⟨p.2⟩))
        | none => helmLoop rest args flags
      else
        match rest with
        | v :: rest' =>
          if ¬ pyStartsWith v "-" then
            helmLoop rest' args (pyDictSet flags t (some v))
          else helmLoop (v :: rest') args (pyDictSet flags t none)
        | [] => helmLoop [] args (pyDictSet flags t none)
    else if pyStartsWith t "-" ∧ t.length = 2 then
      match rest with
      | v :: rest' =>
        if ¬ pyStartsWith v "-" then
          helmLoop rest' args (pyDictSet flags t (some v))
        else helmLoop (v :: rest') args (pyDictSet flags t none)
      | [] => helmLoop [] args (pyDictSet flags t none)
    else helmLoop rest (args ++ [t]) flags

/-- The flag/positional loop of `_parse_aws` (only long flags are
recognized; every other token is positional). -/
def awsLoop : List String → List String → List (String × Option String) →
    List String × List (String × Option String)
  | [], args, flags => (args, flags)
  | t :: rest, args, flags =>
    if pyStartsWith t "--" then
      if pyHasChar t '=' then
        match splitFirstChar '=' t.data with
        | some p => awsLoop rest args (pyDictSet flags ⟨p.1⟩ (some ⟨p.2⟩))
        | none => awsLoop rest args flags
      else
        match rest with
        | v :: rest' =>
          if ¬ pyStartsWith v "-" then
            awsLoop rest' args (pyDictSet flags t (some v))
          else awsLoop (v :: rest') args (pyDictSet flags t none)
        | [] => awsLoop [] args (pyDictSet flags t none)
    else awsLoop rest (args ++ [t]) flags

/-- `_parse_helm`. -/
def parseHelm (tokens : List String) (raw : String) : ParsedCommand :=
  match tokens with
  | [] =>
    { tool := "helm", action := "", resource := none, name := none,
      args := [], flags := [], raw := raw }
  | action :: rest =>
    let af := helmLoop rest [] []
    let name :=
      if action ∈ ["install", "upgrade", "uninstall", "delete", "status",
          "history"] then
        match af.1 with
        | a0 :: _ => some a0
        | [] => none
      else none
    { tool := "helm", action := action, resource := none, name := name,
      args := af.1, flags := af.2, raw := raw }

/-- `_parse_argocd`: `argocd <resource> <action> [args]`. -/
def parseArgocd (tokens : List String) (raw : String) : ParsedCommand :=
  match tokens with
  | [] =>
    { tool := "argocd", action := "", resource := none, name := none,
      args := [], flags := [], raw := raw }
  | r :: rest0 =>
    let act := match rest0 with
      | a :: _ => a
      | [] => ""
    let rest := rest0.drop 1
    let af := helmLoop rest [] []
    let name := match af.1 with
      | a0 :: _ => some a0
      | [] => none
    { tool := "argocd", action := pyStrip (r ++ " " ++ act),
      resource := some r, name := name, args := af.1, flags := af.2,
      raw := raw }

/-- `_parse_aws`: `aws <service> <action> [args]`. -/
def parseAws (tokens : List String) (raw : String) : ParsedCommand :=
  match tokens with
  | [] =>
    { tool := "aws", action := "", resource := none, name := none,
      args := [], flags := [], raw := raw }
  | service :: rest0 =>
    let act := match rest0 with
      | a :: _ => a
      | [] => ""
    let rest := rest0.drop 1
    let af := awsLoop rest [] []
    { tool := "aws", action := pyStrip (service ++ " " ++ act),
      resource := some service, name := none, args := af.1, flags := af.2,
      raw := raw }

/-- `_parse_generic`. -/
def parseGeneric (tool : String) (tokens : List String) (raw : String) :
    ParsedCommand :=
  match tokens with
  | [] =>
    { tool := tool, action := "", resource := none, name := none,
      args := [], flags := [], raw := raw }
  | action :: rest =>
    { tool := tool, action := action, resource := none, name := none,
      args := rest, flags := [], raw := raw }

/-- `parse_command`. -/
def parseCommand (command : String) : ParsedCommand :=
  match tokenize command with
  | [] =>
    { tool := "", action := "", resource := none, name := none,
      args := [], flags := [], raw := command }
  | t0 :: rest =>
    let tool := pyLower t0
    if tool = "kubectl" then parseKubectl rest command
    else if tool = "helm" then parseHelm rest command
    else if tool = "argocd" then parseArgocd rest command
    else if tool = "aws" then parseAws rest command
    else parseGeneric tool rest command

/-- `is_pipe_command`: scan for an unquoted `|`. -/
def isPipeGo : List Char → Bool → Bool → Bool
  | [], _, _ => false
  | c :: cs, inS, inD =>
    if c = '\'' ∧ ¬ inD then isPipeGo cs (¬ inS) inD
    else if c = '"' ∧ ¬ inS then isPipeGo cs inS (¬ inD)
    else if c = '|' ∧ ¬ inS ∧ ¬ inD then true
    else isPipeGo cs inS inD

def isPipeCommand (command : String) : Bool :=
  isPipeGo command.data false false

/-- The accumulation loop of `split_pipe_commands` (before the final
non-empty filter): current-segment characters are collected, an unquoted `|`
emits the stripped segment. -/
def splitPipeGo : List Char → List Char → Bool → Bool → List String
  | [], current, _, _ =>
    if current = [] then [] else [pyStrip ⟨current.reverse⟩]
  | c :: cs, current, inS, inD =>
    if c = '\'' ∧ ¬ inD then splitPipeGo cs (c :: current) (¬ inS) inD
    else if c = '"' ∧ ¬ inS then splitPipeGo cs (c :: current) inS (¬ inD)
    else if c = '|' ∧ ¬ inS ∧ ¬ inD then
      pyStrip ⟨current.reverse⟩ :: splitPipeGo cs [] inS inD
    else splitPipeGo cs (c :: current) inS inD

/-- `split_pipe_commands`. -/
def splitPipeCommands (command : String) : List String :=
  (splitPipeGo command.data [] false false).filter (fun c => c ≠ "")

/-! ## Validator (`executor/validator.py`)

`CommandValidator` holds the security configuration.  Regex rules are
pre-compiled by `_compile_regex_rules`; the compiled `re.Pattern.search` is an
external-library call and is modelled at its interface as a `String → Bool`
matching function carried by the rule. -/

/-- One entry of `_compiled_regex[tool]`: `(compiled pattern, action,
message)`, with the compiled pattern modelled by its `search` function. -/
structure RegexRuleC where
  search : String → Bool
  action : String
  message : String

/-- The state of a constructed `CommandValidator` (mode, the per-tool dicts,
the `allowed_unix_commands` set and the compiled regex rules). -/
structure SecurityConfig where
  mode : String
  dangerousCommands : List (String × List String)
  safePatterns : List (String × List String)
  compiledRegex : List (String × List RegexRuleC)
  allowedUnixCommands : List String

/-- Model of `k in d` on a per-tool dict. -/
def keyMem {α : Type} (d : List (String × α)) (k : String) : Bool :=
  d.any (fun p => p.1 = k)

/-- Model of `d.get(k, dflt)`. -/
def dictGetD {α : Type} (d : List (String × α)) (k : String) (dflt : α) : α :=
  match d.find? (fun p => p.1 = k) with
  | some p => p.2
  | none => dflt

/-- The destructive-action set used by `_matches_safe_pattern`. -/
def destructiveActions : List String := ["delete", "drain", "cordon", "taint"]

/-- The structural half of `_matches_safe_pattern` (tool/action equality,
required flags, resource equality, destructive-name requirement), reached
when the word-boundary prefix match does not decide. -/
def structuralMatch (parsed : ParsedCommand) (pat : String) : Bool :=
  let pp := parseCommand pat
  if parsed.tool ≠ pp.tool then false
  else if parsed.action ≠ pp.action then false
  else if pp.flags.any (fun f => ¬ parsed.hasFlag [f.1]) then false
  else if pyTruthy pp.resource then
    if parsed.resource ≠ pp.resource then false
    else if pp.action ∈ destructiveActions ∧ ¬ pyTruthy parsed.name then false
    else true
  else true

/-- `_matches_safe_pattern`. -/
def matchesSafePattern (parsed : ParsedCommand) (pat : String) : Bool :=
  let rawLower := pyLower parsed.raw
  let patLower := pyLower pat
  if pyStartsWith rawLower patLower then
    let remaining : String := ⟨rawLower.data.drop patLower.data.length⟩
    if remaining ≠ "" ∧
        (remaining.data.head? = some ' ' ∨ remaining.data.head? = some '\t') then
      true
    else if remaining = "" then
      if (parseCommand pat).action ∈ destructiveActions then false else true
    else structuralMatch parsed pat
  else structuralMatch parsed pat

/-- `_check_regex_rules`: the first rule whose pattern matches `raw` and whose
action is `block` blocks with its message; matching `allow` rules fall
through; otherwise allow. -/
def checkRegexRules (cfg : SecurityConfig) (parsed : ParsedCommand) :
    ValidationResult :=
  let rules := dictGetD cfg.compiledRegex parsed.tool []
  match rules.find? (fun r => r.search parsed.raw ∧ r.action = "block") with
  | some r =>
    ValidationResult.block r.message (some ("regex_rules." ++ parsed.tool))
  | none => ValidationResult.allow

/-- `_validate_parsed_command`. -/
def validateParsedCommand (cfg : SecurityConfig) (parsed : ParsedCommand) :
    ValidationResult :=
  let tool := parsed.tool
  if ¬ keyMem cfg.dangerousCommands tool ∧ ¬ keyMem cfg.safePatterns tool then
    ValidationResult.allow
  else
    let dangerList := dictGetD cfg.dangerousCommands tool []
    match dangerList.find? (fun p => pyStartsWith (pyLower parsed.raw) (pyLower p)) with
    | none => checkRegexRules cfg parsed
    | some matchedPre =>
      if (dictGetD cfg.safePatterns tool []).any
          (fun pat => matchesSafePattern parsed pat) then
        checkRegexRules cfg parsed
      else
        ValidationResult.block
          ("Command blocked: matches dangerous pattern '" ++ matchedPre ++ "'")
          (some ("dangerous_commands." ++ tool))

/-- The stage loop of `_validate_pipe_command` (`for i, cmd in
enumerate(commands)`). -/
def pipeGo (cfg : SecurityConfig) : Nat → List String → ValidationResult
  | _, [] => ValidationResult.allow
  | i, c :: rest =>
    let cmd := pyStrip c
    if cmd = "" then pipeGo cfg (i + 1) rest
    else
      let parsed := parseCommand cmd
      if i = 0 then
        let r := validateParsedCommand cfg parsed
        if r.allowed then pipeGo cfg (i + 1) rest else r
      else if cfg.allowedUnixCommands.contains parsed.tool then
        pipeGo cfg (i + 1) rest
      else
        ValidationResult.block
          ("Unix command '" ++ parsed.tool ++ "' is not allowed in pipes")
          (some "allowed_unix_commands")

/-- `_validate_pipe_command`. -/
def validatePipeCommand (cfg : SecurityConfig) (command : String) :
    ValidationResult :=
  pipeGo cfg 0 (splitPipeCommands command)

/-- `CommandValidator.validate`. -/
def validate (cfg : SecurityConfig) (command : String) : ValidationResult :=
  if cfg.mode = "permissive" then ValidationResult.allow
  else if isPipeCommand command then validatePipeCommand cfg command
  else validateParsedCommand cfg (parseCommand command)

/-- The shell set of `validate_exec_command`. -/
def dangerousShells : List String :=
  ["sh", "bash", "/bin/sh", "/bin/bash", "/bin/zsh", "zsh"]

/-- `validate_exec_command`.  `parsed.args.index("--")` raising `ValueError`
is modelled by `findIdx?` returning `none`. -/
def validateExecCommand (parsed : ParsedCommand) : ValidationResult :=
  if ¬ (parsed.tool = "kubectl" ∧ parsed.action = "exec") then
    ValidationResult.allow
  else if parsed.hasFlag ["--help"] then ValidationResult.allow
  else if parsed.hasFlag ["-it", "-ti", "-i", "-t"] then ValidationResult.allow
  else
    match parsed.args.findIdx? (fun a => a = "--") with
    | none => ValidationResult.allow
    | some idx =>
      let shellArgs := parsed.args.drop (idx + 1)
      match shellArgs with
      | [] => ValidationResult.allow
      | firstArg :: _ =>
        if firstArg ∈ dangerousShells ∧ ¬ shellArgs.contains "-c" then
          ValidationResult.block
            "Interactive shell in exec without explicit -it flag is blocked"
            (some "exec_shell_check")
        else ValidationResult.allow

/-! ## Runner (`executor/runner.py`)

`runner.py` captures stdout/stderr as bytes and decodes with
`decode("utf-8", errors="replace")` before any other processing; the model
works with the already-decoded text (decoding is an external primitive).
Wall-clock `execution_time` is not modelled.  Expected failures are raised as
`CommandExecutionError(message, details)` and caught by
`execute_tool_command`; the exception is modelled as the `Except.error`
branch. -/

/-- The payload of a raised `CommandExecutionError`: its message and the
`details` dict (`command`, `exit_code`, `stderr`). -/
structure CommandExecError where
  message : String
  command : String
  exitCode : Int
  stderr : String
  deriving DecidableEq

/-- The v1 `CommandResult` TypedDict (`status`, `output`, optional
`exit_code`, optional error info; `execution_time` omitted as wall-clock). -/
structure CommandResultV1 where
  status : String
  output : String
  exitCode : Option Int
  errorMessage : Option String
  deriving DecidableEq

/-- `process_command_result` (`runner.py` lines 298-342): decode, default the
exit code to `-1`, truncate the decoded text at `max_output_size` characters
appending a marker, then raise `CommandExecutionError` on non-zero exit and
otherwise return a success result. -/
def processCommandResult (returncode : Option Int) (stdout stderr : String)
    (command : String) (maxOutputSize : Nat) :
    Except CommandExecError CommandResultV1 :=
  let exitCode : Int := returncode.getD (-1)
  let stdoutStr : String :=
    if stdout.length > maxOutputSize then
      (⟨stdout.data.take maxOutputSize⟩ : String) ++ "\n... (output truncated)"
    else stdout
  if exitCode ≠ 0 then
    Except.error
      { message := if stderr ≠ "" then stderr
                   else "Command failed with no error output",
        command := command, exitCode := exitCode, stderr := stderr }
  else
    Except.ok
      { status := "success", output := stdoutStr, exitCode := some exitCode,
        errorMessage := none }

/-- Modelled from the spec: `create_error_result` lives in
`executor/errors.py`, which is imported by `runner.py` but absent from the
source tree.  Per the failure taxonomy (§4.3/§7), an expected failure is
returned as a result with `status=error` and a human error message; the
`exit_code` keyword supplied by the caller populates the result's exit
code. -/
def createErrorResult (e : CommandExecError) (_command : String)
    (exitCode : Int) : CommandResultV1 :=
  { status := "error", output := "", exitCode := some exitCode,
    errorMessage := some e.message }

/-- The error-handling shape of `execute_tool_command` (lines 399-424) around
`process_command_result` for a completed child process: an
`Except.ok` result is returned as-is, a raised `CommandExecutionError` is
caught and turned into `create_error_result(e, command=command,
exit_code=0)` — the literal `0` is what the source passes. -/
def executeToolCommandResult (returncode : Option Int)
    (stdout stderr command : String) (maxOutputSize : Nat) : CommandResultV1 :=
  match processCommandResult returncode stdout stderr command maxOutputSize with
  | Except.ok r => r
  | Except.error e => createErrorResult e command 0

/-- Observable behaviour of one stage of a pipe chain: how long its wait
takes (seconds, relative to the same clock as the timeout), its exit code and
its captured output. -/
structure StageSpec where
  duration : Nat
  exitCode : Int
  stdout : String
  stderr : String
  deriving DecidableEq

instance {e a : Type} [DecidableEq e] [DecidableEq a] :
    DecidableEq (Except e a) := fun x y =>
  match x, y with
  | Except.ok u, Except.ok v =>
    if h : u = v then isTrue (by rw [h])
    else isFalse (by intro hh; cases hh; exact h rfl)
  | Except.error u, Except.error v =>
    if h : u = v then isTrue (by rw [h])
    else isFalse (by intro hh; cases hh; exact h rfl)
  | Except.ok _, Except.error _ => isFalse (by intro hh; cases hh)
  | Except.error _, Except.ok _ => isFalse (by intro hh; cases hh)

/-- Outcome of `execute_piped_commands`: a raised `CommandTimeoutError`, a
raised `CommandExecutionError` naming the failed stage, or the processed
result of the last stage. -/
inductive PipeOutcome where
  | timedOut
  | failedStage (stage : Nat) (exitCode : Int)
  | completed (r : Except CommandExecError CommandResultV1)
  deriving DecidableEq

/-- `execute_piped_commands` (lines 170-248), with the timed waits made
explicit: `asyncio.wait_for(first_process.wait(), timeout)` bounds ONLY the
first stage's wait — it raises `CommandTimeoutError` iff the first stage's
duration exceeds `timeout` — while `last_process.communicate()` and the
per-stage `returncode` sweep are awaited with no deadline.  All stages are
assumed to eventually terminate (finite durations). -/
def executePipedCommands (stages : List StageSpec) (timeout : Nat)
    (command : String) (maxOutputSize : Nat) : PipeOutcome :=
  match stages with
  | [] => PipeOutcome.completed (Except.error
      { message := "Empty command list", command := command, exitCode := -1,
        stderr := "" })
  | s0 :: rest =>
    if s0.duration > timeout then PipeOutcome.timedOut
    else if s0.exitCode ≠ 0 then PipeOutcome.failedStage 1 s0.exitCode
    else
      match (s0 :: rest).findIdx? (fun s => s.exitCode ≠ 0) with
      | some i => PipeOutcome.failedStage (i + 1)
          (((s0 :: rest).getD i s0).exitCode)
      | none =>
        let lastStage := rest.getLastD s0
        PipeOutcome.completed
          (processCommandResult (some lastStage.exitCode) lastStage.stdout
            lastStage.stderr command maxOutputSize)

/-! ## In-memory event store (`session/event_store.py`)

`InMemoryEventStore` keeps a per-stream list of `(event_id, message)` pairs
and a single global counter.  The stored composite id is
`f"{stream_id}:{self._counter}"`; since replay re-parses exactly the counter
back out of it, entries are modelled as `(counter, message)` pairs, with the
message payload kept opaque as an optional string. -/

structure EventStoreState where
  counter : Nat
  streams : List (String × List (Nat × Option String))
  deriving DecidableEq

def emptyEventStore : EventStoreState := { counter := 0, streams := [] }

/-- Model of the Python slice `l[-k:]` for `k ≥ 0` (note that `l[-0:]` is the
whole list, so `max_events = 0` never trims). -/
def pyLastSlice {α : Type} (l : List α) (k : Nat) : List α :=
  if k = 0 then l else l.drop (l.length - k)

/-- `InMemoryEventStore.store_event`: ensure the stream exists, bump the
global counter, append `(counter, message)`, trim to the last `max_events`
entries when over the cap; returns the new state and the composite event
id. -/
def storeEvent (st : EventStoreState) (maxEvents : Nat) (sid : String)
    (msg : Option String) : EventStoreState × String :=
  let streams1 :=
    if keyMem st.streams sid then st.streams else st.streams ++ [(sid, [])]
  let c := st.counter + 1
  let streams2 := streams1.map (fun p =>
    if p.1 = sid then
      let l' := p.2 ++ [(c, msg)]
      (p.1, if l'.length > maxEvents then pyLastSlice l' maxEvents else l')
    else p)
  ({ counter := c, streams := streams2 }, sid ++ ":" ++ toString c)

/-- Split a character list at the LAST occurrence of `:` (model of
`last_event_id.rsplit(":", 1)` when a colon occurs; `none` models the
unpacking `ValueError` when there is none). -/
def rsplitLastColon : List Char → Option (List Char × List Char)
  | [] => none
  | c :: cs =>
    match rsplitLastColon cs with
    | some p => some (c :: p.1, p.2)
    | none => if c = ':' then some ([], cs) else none

/-- Digit-string to number (helper for the `int()` model). -/
def digitsToNat (l : List Char) : Option Nat :=
  if l ≠ [] ∧ l.all (fun c => c.isDigit) then
    some (l.foldl (fun n c => n * 10 + (c.toNat - 48)) 0)
  else none

/-- Model of Python `int(s)`: surrounding whitespace stripped, optional sign,
at least one digit; `none` models the `ValueError` (digit-group underscores
are not modelled). -/
def pyToInt (s : String) : Option Int :=
  match (pyStrip s).data with
  | '-' :: ds => (digitsToNat ds).map (fun n => -(n : Int))
  | '+' :: ds => (digitsToNat ds).map (fun n => (n : Int))
  | ds => (digitsToNat ds).map (fun n => (n : Int))

/-- The parse step of `replay_events_after`:
`stream_id, counter_str = last_event_id.rsplit(":", 1)` followed by
`int(counter_str)`; `none` models the caught `ValueError`. -/
def parseEventId (eventId : String) : Option (String × Int) :=
  match rsplitLastColon eventId.data with
  | none => none
  | some p => (pyToInt ⟨p.2⟩).map (fun k => ((⟨p.1⟩ : String), k))

/-- `InMemoryEventStore.replay_events_after`.  Returns the value the method
returns together with the ordered list of `send_callback` invocations
(event id, message). -/
def replayEventsAfter (st : EventStoreState) (lastEventId : String) :
    Option String × List (String × Option String) :=
  match parseEventId lastEventId with
  | none => (none, [])
  | some (sid, lastCounter) =>
    match st.streams.find? (fun p => p.1 = sid) with
    | none => (none, [])
    | some p =>
      let replayed := p.2.filter (fun e => (e.1 : Int) > lastCounter)
      (if replayed.isEmpty then none else some sid,
       replayed.map (fun e => (sid ++ ":" ++ toString e.1, e.2)))

/-! ## Preprocessor middleware (`middleware/preprocessor.py`) -/

/-- JSON-like values carried in tool-call argument maps and schemas. -/
inductive JVal where
  | null
  | jbool (b : Bool)
  | jnum (n : Int)
  | jstr (s : String)
  | jarr (xs : List JVal)
  | jobj (fields : List (String × JVal))

/-- Model of `fields["k"]` presence/lookup on a JSON object. -/
def jDictGet (fields : List (String × JVal)) (k : String) : Option JVal :=
  (fields.find? (fun p => p.1 = k)).map (fun p => p.2)

/-- `ToolCallPreprocessor._extract_allowed_params`: `None` unless the schema
is a dict with a dict-valued `properties`, in which case the set of property
keys. -/
def extractAllowedParams (schema : JVal) : Option (List String) :=
  match schema with
  | JVal.jobj fields =>
    match jDictGet fields "properties" with
    | some (JVal.jobj props) => some (props.map (fun p => p.1))
    | some _ => none
    | none => none
  | _ => none

/-- `ToolCallPreprocessor._filter_to_schema` as a function on the argument
map: empty/absent arguments are returned untouched, a failed tool lookup
(`toolSchema = none`, modelling the caught exception) and a malformed schema
pass the arguments through, otherwise only the whitelisted keys are kept. -/
def filterToSchema (toolSchema : Option JVal)
    (arguments : List (String × JVal)) : List (String × JVal) :=
  if arguments.isEmpty then arguments
  else
    match toolSchema with
    | none => arguments
    | some schema =>
      match extractAllowedParams schema with
      | none => arguments
      | some allowed => arguments.filter (fun kv => allowed.contains kv.1)

/-! ## Concrete policies and states used by the claim statements -/

/-- The policy of spec scenario 3/4: `kubectl delete` is a dangerous prefix
and `kubectl delete pod` a safe pattern (strict mode, no regex rules). -/
def cfgScenario3 : SecurityConfig :=
  { mode := "strict",
    dangerousCommands := [("kubectl", ["kubectl delete"])],
    safePatterns := [("kubectl", ["kubectl delete pod"])],
    compiledRegex := [],
    allowedUnixCommands := [] }

/-- A strict policy whose `dangerous_commands`/`safe_patterns` do not know
the tool `foo` but whose regex rules carry a matching block rule for it. -/
def cfgUnknownTool : SecurityConfig :=
  { mode := "strict",
    dangerousCommands := [("kubectl", ["kubectl delete"])],
    safePatterns := [],
    compiledRegex :=
      [("foo",
        [{ search := fun s => pyHasChar s 'b', action := "block",
           message := "blocked by regex" }])],
    allowedUnixCommands := [] }

/-- The policy of spec scenario 5: `allowed_unix_commands = {grep, wc, jq,
head}`, nothing else configured. -/
def cfgPipe : SecurityConfig :=
  { mode := "strict", dangerousCommands := [], safePatterns := [],
    compiledRegex := [], allowedUnixCommands := ["grep", "wc", "jq", "head"] }

/-- The event-store state of spec scenario 10: five messages appended to
stream `S`. -/
def evStore5 : EventStoreState :=
  (storeEvent (storeEvent (storeEvent (storeEvent (storeEvent
    emptyEventStore 100 "S" (some "m1")).1 100 "S" (some "m2")).1
    100 "S" (some "m3")).1 100 "S" (some "m4")).1 100 "S" (some "m5")).1

/-- Per-stream sequences are strictly increasing and bounded by the global
counter (the state invariant of `InMemoryEventStore`). -/
def eventStoreInv (st : EventStoreState) : Prop :=
  ∀ p ∈ st.streams,
    List.Pairwise (· < ·) (p.2.map Prod.fst) ∧
    ∀ n ∈ p.2.map Prod.fst, n ≤ st.counter

/-! ## Helper lemmas -/

theorem parseKubectl_raw (ts : List String) (r : String) :
    (parseKubectl ts r).raw = r := by
  cases ts <;> rfl

theorem parseHelm_raw (ts : List String) (r : String) :
    (parseHelm ts r).raw = r := by
  cases ts <;> rfl

theorem parseArgocd_raw (ts : List String) (r : String) :
    (parseArgocd ts r).raw = r := by
  cases ts <;> rfl

theorem parseAws_raw (ts : List String) (r : String) :
    (parseAws ts r).raw = r := by
  cases ts <;> rfl

theorem parseGeneric_raw (t : String) (ts : List String) (r : String) :
    (parseGeneric t ts r).raw = r := by
  cases ts <;> rfl

/-- `parse_command` stores the original string in `raw` on every path. -/
theorem parseCommand_raw (s : String) : (parseCommand s).raw = s := by
  unfold parseCommand
  cases tokenize s with
  | nil => rfl
  | cons t0 rest =>
    simp only
    split
    · exact parseKubectl_raw rest s
    · split
      · exact parseHelm_raw rest s
      · split
        · exact parseArgocd_raw rest s
        · split
          · exact parseAws_raw rest s
          · exact parseGeneric_raw _ rest s

theorem pyStartsWith_self (s : String) : pyStartsWith s s = true := by
  simp [pyStartsWith, List.isPrefixOf_iff_prefix]

theorem pyStrip_data (s : String) :
    (pyStrip s).data = List.rdropWhile isPyWs (s.data.dropWhile isPyWs) := rfl

theorem dropWhile_rdropWhile_dropWhile {α : Type} (p : α → Bool)
    (d : List α) :
    List.dropWhile p (List.rdropWhile p (List.dropWhile p d)) =
      List.rdropWhile p (List.dropWhile p d) := by
  rw [List.dropWhile_eq_self_iff]
  intro hl
  have hpre : List.rdropWhile p (List.dropWhile p d) <+: List.dropWhile p d :=
    List.rdropWhile_prefix p _
  have hfail :
      ¬ p ((List.rdropWhile p (List.dropWhile p d)).get ⟨0, hl⟩) = true := by
    have hidem : List.dropWhile p (List.dropWhile p d) = List.dropWhile p d :=
      List.dropWhile_idempotent p d
    have hAlen : 0 < (List.dropWhile p d).length :=
      lt_of_lt_of_le hl hpre.length_le
    have h0 := List.dropWhile_eq_self_iff.mp hidem hAlen
    have hget : (List.rdropWhile p (List.dropWhile p d)).get ⟨0, hl⟩ =
        (List.dropWhile p d).get ⟨0, hAlen⟩ := by
      simpa using hpre.getElem (by simpa using hl)
    rw [hget]
    exact h0
  exact hfail

/-- `str.strip()` is idempotent. -/
theorem pyStrip_idem (s : String) : pyStrip (pyStrip s) = pyStrip s := by
  apply congrArg String.mk
  show List.rdropWhile isPyWs (List.dropWhile isPyWs
      (List.rdropWhile isPyWs (List.dropWhile isPyWs s.data))) =
    List.rdropWhile isPyWs (List.dropWhile isPyWs s.data)
  rw [dropWhile_rdropWhile_dropWhile, List.rdropWhile_idempotent]

/-- Every element produced by the accumulation loop of
`split_pipe_commands` is the result of a `strip()`. -/
theorem mem_splitPipeGo (x : String) :
    ∀ (l cur : List Char) (a b : Bool), x ∈ splitPipeGo l cur a b →
      ∃ y : String, x = pyStrip y := by
  intro l
  induction l with
  | nil =>
    intro cur a b hx
    unfold splitPipeGo at hx
    split at hx
    · simp at hx
    · simp at hx
      exact ⟨_, hx⟩
  | cons c cs ih =>
    intro cur a b hx
    unfold splitPipeGo at hx
    split_ifs at hx with h1 h2 h3
    · exact ih _ _ _ hx
    · exact ih _ _ _ hx
    · rcases List.mem_cons.mp hx with h | h
      · exact ⟨_, h⟩
      · exact ih _ _ _ h
    · exact ih _ _ _ hx

/-- Every stage returned by `split_pipe_commands` is already stripped and
non-empty. -/
theorem splitPipeCommands_mem (c x : String)
    (hx : x ∈ splitPipeCommands c) : pyStrip x = x ∧ x ≠ "" := by
  unfold splitPipeCommands at hx
  obtain ⟨hmem, hne⟩ := List.mem_filter.mp hx
  obtain ⟨y, rfl⟩ := mem_splitPipeGo x _ _ _ _ hmem
  refine ⟨pyStrip_idem y, ?_⟩
  simpa using hne

/-- On the later stages (`i ≠ 0`) of a pipe chain whose elements are
stripped and non-empty, the pipe loop blocks at the first stage whose tool is
outside `allowed_unix_commands`, naming that tool, and allows otherwise. -/
theorem pipeGo_rest (cfg : SecurityConfig) :
    ∀ (l : List String) (i : Nat), i ≠ 0 →
      (∀ x ∈ l, pyStrip x = x ∧ x ≠ "") →
      pipeGo cfg i l =
        match l.find? (fun st =>
            !(cfg.allowedUnixCommands.contains (parseCommand st).tool)) with
        | some st =>
          ValidationResult.block
            ("Unix command '" ++ (parseCommand st).tool ++
              "' is not allowed in pipes")
            (some "allowed_unix_commands")
        | none => ValidationResult.allow := by
  intro l
  induction l with
  | nil => intro i _ _; rfl
  | cons c rest ih =>
    intro i hi hstrip
    obtain ⟨hcstrip, hcne⟩ := hstrip c (List.mem_cons_self c rest)
    unfold pipeGo
    rw [hcstrip, if_neg hcne, if_neg hi]
    rw [List.find?_cons]
    cases hc : cfg.allowedUnixCommands.contains (parseCommand c).tool with
    | true =>
      rw [if_pos rfl, ih (i + 1) (Nat.succ_ne_zero i)
        (fun x hx => hstrip x (List.mem_cons_of_mem c hx))]
      rfl
    | false =>
      rw [if_neg (by simp)]
      rfl

/-! ## Parser/exec-check lemmas for C8 -/

theorem kubectlLoop_cons (t : String) (rest args : List String)
    (flags : List (String × Option String)) :
    kubectlLoop (t :: rest) args flags =
      if pyStartsWith t "--" = true then
        if pyHasChar t '=' = true then
          match splitFirstChar '=' t.data with
          | some p =>
            kubectlLoop rest args
              (pyDictSet flags ⟨p.1⟩ (some ⟨p.2⟩))
          | none => kubectlLoop rest args flags
        else
          match rest with
          | v :: rest' =>
            if ¬ pyStartsWith v "-" = true then
              kubectlLoop rest' args (pyDictSet flags t (some v))
            else kubectlLoop (v :: rest') args (pyDictSet flags t none)
          | [] => kubectlLoop [] args (pyDictSet flags t none)
      else if pyStartsWith t "-" = true ∧ t.length = 2 then
        match rest with
        | v :: rest' =>
          if ¬ pyStartsWith v "-" = true then
            kubectlLoop rest' args (pyDictSet flags t (some v))
          else kubectlLoop (v :: rest') args (pyDictSet flags t none)
        | [] => kubectlLoop [] args (pyDictSet flags t none)
      else if pyStartsWith t "-" = true ∧ t.length > 2 then
        kubectlLoop rest args (pyDictSet flags t none)
      else kubectlLoop rest (args ++ [t]) flags := by
  cases rest <;> rfl

theorem kubectlLoop_no_sep :
    ∀ (ts args0 : List String) (flags0 : List (String × Option String)),
      "--" ∉ args0 → "--" ∉ (kubectlLoop ts args0 flags0).1 := by
  intro ts args0 flags0
  induction ts, args0, flags0 using kubectlLoop.induct
  case case1 => intro h; simpa [kubectlLoop] using h
  case case11 =>
    rename_i t rest args flags h1 h2 h3 ih
    intro h
    have ht : t ≠ "--" := fun he => h1 (he ▸ pyStartsWith_self "--")
    have h2' : "--" ∉ args ++ [t] := by
      intro hmem
      rcases List.mem_append.mp hmem with hm | hm
      · exact h hm
      · rw [List.mem_singleton] at hm
        exact ht hm.symm
    rw [kubectlLoop_cons, if_neg h1, if_neg h2, if_neg h3]
    exact ih h2'
  all_goals
    (rename_i ih
     intro h
     rw [kubectlLoop_cons]
     simp_all only []
     first
       | exact ih h
       | exact ih not_false)

theorem parseKubectl_tool (ts : List String) (r : String) :
    (parseKubectl ts r).tool = "kubectl" := by
  cases ts <;> rfl

theorem parseHelm_tool (ts : List String) (r : String) :
    (parseHelm ts r).tool = "helm" := by
  cases ts <;> rfl

theorem parseArgocd_tool (ts : List String) (r : String) :
    (parseArgocd ts r).tool = "argocd" := by
  cases ts <;> rfl

theorem parseAws_tool (ts : List String) (r : String) :
    (parseAws ts r).tool = "aws" := by
  cases ts <;> rfl

theorem parseGeneric_tool (t : String) (ts : List String) (r : String) :
    (parseGeneric t ts r).tool = t := by
  cases ts <;> rfl

theorem parseKubectl_args_no_sep (ts : List String) (r : String) :
    "--" ∉ (parseKubectl ts r).args := by
  cases ts with
  | nil => simp [parseKubectl]
  | cons a rest =>
    show "--" ∉ (kubectlLoop rest [] []).1
    exact kubectlLoop_no_sep rest [] [] (by simp)

theorem validateExec_allow_of_no_sep (p : ParsedCommand)
    (h : "--" ∉ p.args) : validateExecCommand p = ValidationResult.allow := by
  have hidx : p.args.findIdx? (fun a => a = "--") = none := by
    rw [List.findIdx?_eq_none_iff]
    intro x hx
    simp only [decide_eq_false_iff_not]
    exact fun he => h (he ▸ hx)
  unfold validateExecCommand
  rw [hidx]
  split_ifs <;> rfl

theorem validateExec_allow_of_tool_ne (p : ParsedCommand)
    (h : p.tool ≠ "kubectl") :
    validateExecCommand p = ValidationResult.allow := by
  unfold validateExecCommand
  rw [if_pos (fun hc => h hc.1)]

/-- C8: the kubectl parser never places the literal `--` token in the
positional `args` list (a token starting with `--` is always consumed as a
long flag, possibly taking the following token as its value), and
consequently `validate_exec_command(parse_command(s))` returns allow for
every string `s` — the `exec_shell_check` block branch is unreachable
through `parse_command`. -/
theorem C8_exec_shell_check_unreachable (s : String) :
    ((parseCommand s).tool = "kubectl" → "--" ∉ (parseCommand s).args) ∧
    validateExecCommand (parseCommand s) = ValidationResult.allow := by
  unfold parseCommand
  cases htok : tokenize s with
  | nil =>
    constructor
    · intro habs
      simp at habs
    · exact validateExec_allow_of_tool_ne _ (by simp)
  | cons t0 rest =>
    dsimp only
    by_cases hk : pyLower t0 = "kubectl"
    · rw [if_pos hk]
      exact ⟨fun _ => parseKubectl_args_no_sep rest s,
        validateExec_allow_of_no_sep _ (parseKubectl_args_no_sep rest s)⟩
    · rw [if_neg hk]
      by_cases hh : pyLower t0 = "helm"
      · rw [if_pos hh]
        constructor
        · intro habs
          rw [parseHelm_tool] at habs
          exact absurd habs (by decide)
        · apply validateExec_allow_of_tool_ne
          rw [parseHelm_tool]
          decide
      · rw [if_neg hh]
        by_cases ha : pyLower t0 = "argocd"
        · rw [if_pos ha]
          constructor
          · intro habs
            rw [parseArgocd_tool] at habs
            exact absurd habs (by decide)
          · apply validateExec_allow_of_tool_ne
            rw [parseArgocd_tool]
            decide
        · rw [if_neg ha]
          by_cases hw : pyLower t0 = "aws"
          · rw [if_pos hw]
            constructor
            · intro habs
              rw [parseAws_tool] at habs
              exact absurd habs (by decide)
            · apply validateExec_allow_of_tool_ne
              rw [parseAws_tool]
              decide
          · rw [if_neg hw]
            constructor
            · intro habs
              rw [parseGeneric_tool] at habs
              exact absurd habs hk
            · apply validateExec_allow_of_tool_ne
              rw [parseGeneric_tool]
              exact hk

/-! ## Claim theorems -/

/-- C1: the claim says that for a kubectl exec command without `--help` and
without any of `-it`, `-ti`, `-i`, `-t` whose first positional token after the `--` separator
is a bare shell and without `-c`, the exec sub-check blocks with rule
`exec_shell_check`, and in particular that validating
`"kubectl exec mypod -- bash"` blocks.  The code diverges at that very
input: `_parse_kubectl` consumes the `--` token as a long flag taking `bash`
as its value, so the parsed `args` are just `["mypod"]`, `args.index("--")`
raises `ValueError`, and `validate_exec_command` returns allow. -/
theorem C1_exec_shell_input_allowed :
    (parseCommand "kubectl exec mypod -- bash").args = ["mypod"] ∧
    (parseCommand "kubectl exec mypod -- bash").flags = [("--", some "bash")] ∧
    validateExecCommand (parseCommand "kubectl exec mypod -- bash") =
      ValidationResult.allow := by
  decide

/-- C2: in strict mode, a safe pattern whose parsed action is destructive
(`delete`, `drain`, `cordon`, `taint`) does not re-allow a command whose raw
string equals the pattern (case-insensitively) with no trailing resource
name: `_matches_safe_pattern` returns `False` on the exact-match branch for
destructive patterns.  Concretely, under the scenario-3 policy
(`dangerous_commands[kubectl] = ["kubectl delete"]`,
`safe_patterns[kubectl] = ["kubectl delete pod"]`), validating
`"kubectl delete pod"` blocks with the dangerous-prefix rule. -/
theorem C2_destructive_exact_match_blocked :
    (∀ raw pat : String, pyLower raw = pyLower pat →
      (parseCommand pat).action ∈ destructiveActions →
      matchesSafePattern (parseCommand raw) pat = false) ∧
    validate cfgScenario3 "kubectl delete pod" =
      ValidationResult.block
        "Command blocked: matches dangerous pattern 'kubectl delete'"
        (some "dangerous_commands.kubectl") := by
  refine ⟨?_, by decide⟩
  intro raw pat hlow hdestr
  unfold matchesSafePattern
  rw [parseCommand_raw, hlow]
  dsimp only
  rw [pyStartsWith_self]
  simp only [if_true, List.drop_length]
  simp [hdestr]

/-- C2 witness: the general half of the theorem applied at the concrete
pattern `"kubectl delete"` matched exactly by the command
`"kubectl delete"`. -/
theorem C2_destructive_exact_match_blocked_witness :
    matchesSafePattern (parseCommand "kubectl delete") "kubectl delete"
      = false :=
  C2_destructive_exact_match_blocked.1 "kubectl delete" "kubectl delete"
    rfl (by decide)

/-- C3: the claim says that in strict mode a tool unknown to both
`dangerous_commands` and `safe_patterns` still gets its regex rules
evaluated, blocking when a block rule matches.  The code diverges:
`_validate_parsed_command` returns allow immediately for unknown tools, so
under `cfgUnknownTool` — whose regex rules carry a matching block rule for
the tool `foo` — the command `"foo bar"` is allowed. -/
theorem C3_unknown_tool_skips_regex :
    validate cfgUnknownTool "foo bar" = ValidationResult.allow ∧
    (parseCommand "foo bar").tool = "foo" ∧
    keyMem cfgUnknownTool.dangerousCommands "foo" = false ∧
    keyMem cfgUnknownTool.safePatterns "foo" = false ∧
    (dictGetD cfgUnknownTool.compiledRegex "foo" []).any
      (fun r => r.search "foo bar" ∧ r.action = "block") = true := by
  decide

/-- C3 amended: in strict mode, a single (non-pipe) command whose tool
appears in neither `dangerous_commands` nor `safe_patterns` is allowed
immediately, WITHOUT evaluating the regex rules for that tool. -/
theorem C3_unknown_tool_allowed_without_regex (cfg : SecurityConfig)
    (s : String) (hmode : cfg.mode = "strict")
    (hpipe : isPipeCommand s = false)
    (hd : keyMem cfg.dangerousCommands (parseCommand s).tool = false)
    (hs : keyMem cfg.safePatterns (parseCommand s).tool = false) :
    validate cfg s = ValidationResult.allow := by
  unfold validate validateParsedCommand
  rw [hmode, hpipe]
  simp [hd, hs]

/-- C3 witness: the amended theorem applied at the counterexample input. -/
theorem C3_unknown_tool_allowed_without_regex_witness :
    validate cfgUnknownTool "foo bar" = ValidationResult.allow :=
  C3_unknown_tool_allowed_without_regex cfgUnknownTool "foo bar" rfl
    (by decide) (by decide) (by decide)

/-- C4: for a pipe chain (strict mode), stage 0 is validated by the
single-command algorithm — its block result is returned as-is — and when
stage 0 passes, the chain is blocked at the first later stage whose parsed
tool is outside `allowed_unix_commands`, with a reason naming that tool;
when no later stage misses, the chain is allowed. -/
theorem C4_pipe_stage_whitelist (cfg : SecurityConfig) (c : String)
    (hmode : cfg.mode ≠ "permissive") (hp : isPipeCommand c = true)
    (s0 : String) (rest : List String)
    (hsplit : splitPipeCommands c = s0 :: rest) :
    ((validateParsedCommand cfg (parseCommand s0)).allowed = false →
      validate cfg c = validateParsedCommand cfg (parseCommand s0)) ∧
    ((validateParsedCommand cfg (parseCommand s0)).allowed = true →
      match rest.find? (fun st =>
          !(cfg.allowedUnixCommands.contains (parseCommand st).tool)) with
      | some st =>
        validate cfg c = ValidationResult.block
          ("Unix command '" ++ (parseCommand st).tool ++
            "' is not allowed in pipes")
          (some "allowed_unix_commands")
      | none => validate cfg c = ValidationResult.allow) := by
  have hval : validate cfg c = pipeGo cfg 0 (s0 :: rest) := by
    unfold validate validatePipeCommand
    rw [if_neg hmode, hp, hsplit]
    simp
  have hs0 : pyStrip s0 = s0 ∧ s0 ≠ "" := by
    apply splitPipeCommands_mem c s0
    rw [hsplit]
    exact List.mem_cons_self s0 rest
  have hrest : ∀ x ∈ rest, pyStrip x = x ∧ x ≠ "" := by
    intro x hx
    apply splitPipeCommands_mem c x
    rw [hsplit]
    exact List.mem_cons_of_mem s0 hx
  obtain ⟨hs0strip, hs0ne⟩ := hs0
  constructor
  · intro hblocked
    rw [hval]
    unfold pipeGo
    rw [hs0strip, if_neg hs0ne, if_pos rfl]
    dsimp only
    rw [hblocked]
    simp
  · intro hallowed
    have hgo : validate cfg c = pipeGo cfg 1 rest := by
      rw [hval]
      simp only [pipeGo]
      rw [hs0strip, if_neg hs0ne]
      simp [hallowed]
    rw [hgo, pipeGo_rest cfg rest 1 (by omega) hrest]
    rcases hfind : rest.find? (fun st =>
        !(cfg.allowedUnixCommands.contains (parseCommand st).tool))
      with _ | st <;> simp only [hfind]

/-- C4 witness: spec scenario 5 — `"kubectl get pods | python -c 'x'"` with
`allowed_unix_commands = {grep, wc, jq, head}` is blocked naming
`python`. -/
theorem C4_pipe_stage_whitelist_witness :
    validate cfgPipe "kubectl get pods | python -c 'x'" =
      ValidationResult.block
        "Unix command 'python' is not allowed in pipes"
        (some "allowed_unix_commands") := by
  have h := (C4_pipe_stage_whitelist cfgPipe
    "kubectl get pods | python -c 'x'" (by decide) (by decide)
    "kubectl get pods" ["python -c 'x'"] (by decide)).2 (by decide)
  exact h

/-- C5: the claim (exit-code fidelity: the returned CommandResult carries
the actual child exit code `k`, with status success iff `k = 0` and status
error with `exit_code = k` otherwise) holds for `k = 0` but fails for a
non-zero child exit: `process_command_result` raises `CommandExecutionError`
instead of returning a result, and `execute_tool_command` answers with
`create_error_result(e, command=command, exit_code=0)`, so the result of a
child that exited 42 carries exit code 0. -/
theorem C5_exit_code_not_preserved :
    processCommandResult (some 0) "NAME\n" "" "kubectl get pods" 100000 =
      Except.ok { status := "success", output := "NAME\n",
                  exitCode := some 0, errorMessage := none } ∧
    processCommandResult (some 42) "" "boom" "sh -c 'exit 42'" 100000 =
      Except.error { message := "boom", command := "sh -c 'exit 42'",
                     exitCode := 42, stderr := "boom" } ∧
    executeToolCommandResult (some 42) "" "boom" "sh -c 'exit 42'" 100000 =
      { status := "error", output := "", exitCode := some 0,
        errorMessage := some "boom" } := by
  decide

set_option maxRecDepth 8000 in
/-- C6: the claim (cap before decode; `len(stdout) ≤ max_output_size`;
`truncated` flag set) fails on the code: `process_command_result` decodes
first, truncates by characters and appends a 24-character marker, so a
200-character stdout under a cap of 100 is returned with 123 characters —
exceeding the cap — and the v1 result carries no `truncated` field at
all. -/
theorem C6_truncation_exceeds_cap :
    ((processCommandResult (some 0) ⟨List.replicate 200 'x'⟩ "" "echo xs"
        100).toOption.map (fun r => r.output.length)) = some 123 ∧
    100 < 123 := by
  constructor
  · rfl
  · decide

/-- C7 counterexample: the claim says each stage of an n-stage pipe with
overall timeout t is budgeted `max(t / n, 10)` seconds and that exceeding
any stage's budget yields status timeout.  With `t = 30` and two stages the
claimed budget is `max(15, 10) = 15`, yet a chain whose second stage takes
1000 seconds completes successfully: the code's only deadline is the full
`t` on the first stage's wait. -/
theorem C7_stage_budget_counterexample :
    executePipedCommands
      [{ duration := 1, exitCode := 0, stdout := "a", stderr := "" },
       { duration := 1000, exitCode := 0, stdout := "out", stderr := "" }]
      30 "kubectl get pods | grep x" 100000 =
      PipeOutcome.completed (Except.ok
        { status := "success", output := "out", exitCode := some 0,
          errorMessage := none }) ∧
    1000 > max (30 / 2) 10 := by
  decide

/-- C7 amended: in `execute_piped_commands` the overall timeout bounds ONLY
the first stage's wait — the chain ends with a timeout iff the first stage's
duration exceeds the full timeout; later stages are awaited without any
deadline and no `max(timeout / n, 10)` per-stage budget exists. -/
theorem C7_timeout_first_stage_only (s0 : StageSpec) (rest : List StageSpec)
    (t : Nat) (cmd : String) (cap : Nat) :
    executePipedCommands (s0 :: rest) t cmd cap = PipeOutcome.timedOut ↔
      s0.duration > t := by
  unfold executePipedCommands
  dsimp only
  split_ifs with h1 h2
  · simp [h1]
  · simp [h1, h2]
  · constructor
    · intro h
      split at h <;> simp at h
    · intro h
      exact absurd h h1

/-- C10: the preprocessor's whitelist filter is idempotent — applying
`_filter_to_schema` twice yields the same argument map as applying it once —
and its output is a sublist of its input (it never modifies retained values
and never adds keys). -/
theorem C10_filter_idempotent (ts : Option JVal)
    (args : List (String × JVal)) :
    filterToSchema ts (filterToSchema ts args) = filterToSchema ts args ∧
    (filterToSchema ts args).Sublist args := by
  by_cases hempty : args.isEmpty
  · constructor
    · simp [filterToSchema, hempty]
    · simp only [filterToSchema, if_pos hempty]
      exact List.Sublist.refl args
  · cases ts with
    | none =>
      constructor
      · simp [filterToSchema, hempty]
      · simp only [filterToSchema, if_neg hempty]
        exact List.Sublist.refl args
    | some schema =>
      cases hA : extractAllowedParams schema with
      | none =>
        constructor
        · simp [filterToSchema, hempty, hA]
        · simp only [filterToSchema, if_neg hempty, hA]
          exact List.Sublist.refl args
      | some allowed =>
        constructor
        · by_cases h2 : (args.filter (fun kv =>
              allowed.contains kv.1)).isEmpty
          · simp [filterToSchema, hempty, hA, h2]
          · simp [filterToSchema, hempty, hA, h2, List.filter_filter]
        · simp only [filterToSchema, if_neg hempty, hA]
          exact List.filter_sublist args

/-- The empty store satisfies the event-store invariant. -/
theorem emptyEventStore_inv : eventStoreInv emptyEventStore := by
  intro p hp
  simp [emptyEventStore] at hp

/-- `store_event` preserves the event-store invariant: the global counter
strictly dominates every stored sequence, so appends keep each stream
strictly increasing, and trimming only removes elements. -/
theorem storeEvent_preserves_inv (st : EventStoreState) (maxE : Nat)
    (sid : String) (msg : Option String) (h : eventStoreInv st) :
    eventStoreInv (storeEvent st maxE sid msg).1 := by
  intro p hp
  have hcnt : (storeEvent st maxE sid msg).1.counter = st.counter + 1 := rfl
  have hp' : p ∈ (if keyMem st.streams sid then st.streams
      else st.streams ++ [(sid, [])]).map (fun q =>
        if q.1 = sid then
          (q.1,
            if (q.2 ++ [(st.counter + 1, msg)]).length > maxE then
              pyLastSlice (q.2 ++ [(st.counter + 1, msg)]) maxE
            else q.2 ++ [(st.counter + 1, msg)])
        else q) := hp
  have hbaseinv : ∀ q ∈ (if keyMem st.streams sid then st.streams
      else st.streams ++ [(sid, [])]),
      List.Pairwise (· < ·) (q.2.map Prod.fst) ∧
      ∀ n ∈ q.2.map Prod.fst, n ≤ st.counter := by
    intro q hq
    by_cases hk : keyMem st.streams sid
    · rw [if_pos hk] at hq
      exact h q hq
    · rw [if_neg hk] at hq
      rcases List.mem_append.mp hq with hm | hm
      · exact h q hm
      · rw [List.mem_singleton] at hm
        subst hm
        simp
  rcases List.mem_map.mp hp' with ⟨q, hq, rfl⟩
  obtain ⟨hqp, hqb⟩ := hbaseinv q hq
  by_cases hqs : q.1 = sid
  · rw [if_pos hqs]
    dsimp only
    have hl' : List.Pairwise (· < ·)
        ((q.2 ++ [(st.counter + 1, msg)]).map Prod.fst) := by
      rw [List.map_append, List.pairwise_append]
      refine ⟨hqp, by simp, ?_⟩
      intro a ha b hb
      simp only [List.map_cons, List.map_nil, List.mem_singleton] at hb
      subst hb
      have := hqb a ha
      omega
    have hsub : (if (q.2 ++ [(st.counter + 1, msg)]).length > maxE then
        pyLastSlice (q.2 ++ [(st.counter + 1, msg)]) maxE
      else q.2 ++ [(st.counter + 1, msg)]).Sublist
        (q.2 ++ [(st.counter + 1, msg)]) := by
      split
      · unfold pyLastSlice
        split
        · exact List.Sublist.refl _
        · exact List.drop_sublist _ _
      · exact List.Sublist.refl _
    constructor
    · exact hl'.sublist (hsub.map Prod.fst)
    · intro n hn
      have hmem : n ∈ (q.2 ++ [(st.counter + 1, msg)]).map Prod.fst :=
        (hsub.map Prod.fst).subset hn
      rw [List.map_append, List.mem_append] at hmem
      rcases hmem with hm | hm
      · have := hqb n hm
        omega
      · simp only [List.map_cons, List.map_nil, List.mem_singleton] at hm
        omega
  · rw [if_neg hqs]
    refine ⟨hqp, fun n hn => ?_⟩
    have := hqb n hn
    omega

/-- C9: for the in-memory event store (any state satisfying the
strictly-increasing per-stream invariant, which `store_event` preserves from
the empty store), `replay_events_after` invokes the callback exactly on the
stored events of the parsed stream whose sequence exceeds the parsed
counter, in stored order — which is strictly increasing — and returns the
stream id iff at least one event was replayed; a malformed `last_event_id`
or an unknown stream yields `None` with no callback invocations. -/
theorem C9_replay_events_after (st : EventStoreState)
    (hinv : eventStoreInv st) :
    (∀ id : String, parseEventId id = none →
      replayEventsAfter st id = (none, [])) ∧
    (∀ (id S : String) (k : Int), parseEventId id = some (S, k) →
      st.streams.find? (fun q => q.1 = S) = none →
      replayEventsAfter st id = (none, [])) ∧
    (∀ (id S : String) (k : Int) (l : List (Nat × Option String)),
      parseEventId id = some (S, k) →
      st.streams.find? (fun q => q.1 = S) = some (S, l) →
      replayEventsAfter st id =
        (if (l.filter (fun e => (e.1 : Int) > k)).isEmpty then none
         else some S,
         (l.filter (fun e => (e.1 : Int) > k)).map
           (fun e => (S ++ ":" ++ toString e.1, e.2))) ∧
      List.Pairwise (· < ·)
        ((l.filter (fun e => (e.1 : Int) > k)).map Prod.fst)) := by
  refine ⟨?_, ?_, ?_⟩
  · intro id hid
    unfold replayEventsAfter
    rw [hid]
  · intro id S k hid hfind
    unfold replayEventsAfter
    rw [hid]
    dsimp only
    rw [hfind]
  · intro id S k l hid hfind
    constructor
    · unfold replayEventsAfter
      rw [hid]
      dsimp only
      rw [hfind]
    · have hmem : (S, l) ∈ st.streams := List.mem_of_find?_eq_some hfind
      have hpair := (hinv (S, l) hmem).1
      exact hpair.sublist ((List.filter_sublist l).map Prod.fst)

/-- C9 witness: spec scenario 10 — stream `S` holds sequences 1..5 and the
client resumes from `"S:3"`: the callback sees `S:4` then `S:5` and the
stream id is returned. -/
theorem C9_replay_events_after_witness :
    replayEventsAfter evStore5 "S:3" =
      (some "S", [("S:4", some "m4"), ("S:5", some "m5")]) := by
  have hi : eventStoreInv evStore5 :=
    storeEvent_preserves_inv _ _ _ _ (storeEvent_preserves_inv _ _ _ _
      (storeEvent_preserves_inv _ _ _ _ (storeEvent_preserves_inv _ _ _ _
        (storeEvent_preserves_inv _ _ _ _ emptyEventStore_inv))))
  have h := ((C9_replay_events_after evStore5 hi).2.2 "S:3" "S" 3
    [(1, some "m1"), (2, some "m2"), (3, some "m3"), (4, some "m4"),
     (5, some "m5")] (by decide) (by decide)).1
  exact h

end CbxMcp
